import Mathlib

/-!
Verification development for a World-Bank data ETL pipeline
(`src/scraper.py`, `src/database.py`, `src/api.py`, `scripts/setup.py`).

The Python code is shallowly embedded: Python `str` values become Lean
`String`, Python string operations are modelled character-wise on
`String.data` (ASCII case mapping and the ASCII reading of the regex
classes used by the code), Python `float(...)` applied to a cleaned
numeric string is modelled by an exact decimal record `PyFloat`
(sign, mantissa digits, number of fractional digits) with rational
meaning `pyFloatVal`, and fallible steps return `Option`/`Except`.
-/

/-! ## Python string primitives -/

/-- Python `len(s)` (number of characters). -/
def pyLen (s : String) : Nat := s.data.length

/-- Python slicing `s[:n]` (first `n` characters). -/
def pyTake (s : String) (n : Nat) : String := ⟨s.data.take n⟩

/-- Python `s.lower()` (ASCII case mapping). -/
def pyLower (s : String) : String := ⟨s.data.map Char.toLower⟩

/-- Python `s.upper()` (ASCII case mapping). -/
def pyUpper (s : String) : String := ⟨s.data.map Char.toUpper⟩

/-- Python `s.strip()` : drop leading and trailing whitespace. -/
def pyStrip (s : String) : String :=
  ⟨(((s.data.dropWhile Char.isWhitespace).reverse.dropWhile Char.isWhitespace).reverse)⟩

/-- Python `s.replace(pat, rep)` on character lists: replace every
non-overlapping occurrence of `pat`, scanning left to right.  `fuel`
bounds the number of characters consumed (a replaced occurrence
consumes at least one, so `cs.length` fuel always suffices).  The code
only calls it with a non-empty `pat` such as `"(2020)"`; an empty `pat`
is returned unchanged here. -/
def pyReplaceAux (pat rep : List Char) : Nat → List Char → List Char
  | _, [] => []
  | 0, cs => cs
  | fuel + 1, c :: rest =>
    if pat ≠ [] ∧ pat.isPrefixOf (c :: rest) then
      rep ++ pyReplaceAux pat rep fuel ((c :: rest).drop pat.length)
    else
      c :: pyReplaceAux pat rep fuel rest

/-- Python `s.replace(pat, rep)` at the `String` level. -/
def pyReplace (s pat rep : String) : String :=
  ⟨pyReplaceAux pat.data rep.data s.data.length s.data⟩

/-! ## Numeric coercion (`database.py`, lines 68-76)

`re.sub(r'[^\d.-]', '', value_str)` followed by `float(value_str)`.
`\d` is read as the ASCII digits. -/

/-- A character kept by `re.sub(r'[^\d.-]', '', ...)`: a digit, the
decimal point or the minus sign. -/
def keptChar (c : Char) : Bool := c.isDigit || c = '.' || c = '-'

/-- `re.sub(r'[^\d.-]', '', value_str)`: strip every character that is
not a digit, a decimal point or a minus sign. -/
def clean_value (s : String) : String := ⟨s.data.filter keptChar⟩

/-- The result of Python `float(...)` on a cleaned numeric string, kept
as the exact decimal that was parsed: `mant` is the digit string read as
a natural number and `scale` the number of digits after the point, so
the value denoted is `(-1)^neg * mant / 10^scale`. -/
structure PyFloat where
  neg : Bool
  mant : Nat
  scale : Nat
deriving DecidableEq

/-- The rational number a `PyFloat` denotes. -/
def pyFloatVal (d : PyFloat) : ℚ :=
  (if d.neg then -1 else 1) * (d.mant : ℚ) / 10 ^ d.scale

/-- Numeric value of a digit character. -/
def digitVal (c : Char) : Nat := c.toNat - 48

/-- Read a digit string as a natural number. -/
def digitsVal (cs : List Char) : Nat := cs.foldl (fun a c => 10 * a + digitVal c) 0

/-- Python `float(s)` restricted to strings over the alphabet
`[0-9.-]` (all that survives `clean_value`): an optional leading minus
sign, then digits with at most one decimal point and at least one
digit; anything else raises `ValueError`, modelled as `none`. -/
def pyFloat? (s : String) : Option PyFloat :=
  let cs := s.data
  let (neg, rest) :=
    match cs with
    | '-' :: r => (true, r)
    | _ => (false, cs)
  if rest.any (fun c => !(c.isDigit || c = '.')) then none
  else if (rest.filter (fun c => c = '.')).length > 1 then none
  else
    let ipart := rest.takeWhile (fun c => c ≠ '.')
    let fpart := (rest.dropWhile (fun c => c ≠ '.')).drop 1
    if ipart.isEmpty && fpart.isEmpty then none
    else some ⟨neg, digitsVal (ipart ++ fpart), fpart.length⟩

/-- `database.py` lines 70-84: clean the raw value text, treat an empty
cleaned string as "no value", and let an unparsable remainder raise a
(caught) `ValueError`; both cases emit nothing. -/
def coerce_value (raw : String) : Option PyFloat :=
  let value_str := clean_value raw
  if value_str = "" then none else pyFloat? value_str

/-! ## Data model -/

/-- One indicator inside a scraped per-country record
(`indicators[category][i]` in the JSON produced by `scraper.py`). -/
structure IndicatorInput where
  name : String
  code : String
  value : Option String
  year : Option Int
deriving DecidableEq

/-- One scraped per-country record (the dict built by
`get_country_data`); `indicators` is the category → indicator-list
mapping in insertion order. -/
structure CountryInput where
  code : String
  name : String
  region : Option String
  income_level : Option String
  capital : Option String
  indicators : List (String × List IndicatorInput)
deriving DecidableEq

/-- A row of the `countries` table as built by `process_data_for_db`. -/
structure CountryRow where
  country_code : String
  name : String
  region : Option String
  income_level : Option String
  capital : Option String
  iso2_code : Option String
  iso3_code : Option String
deriving DecidableEq

/-- A row of the `indicators` table as built by `process_data_for_db`. -/
structure IndicatorRow where
  indicator_code : String
  name : String
  category : Option String
  description : String
  source : String
deriving DecidableEq

/-- A row of the `indicator_values` table as built by
`process_data_for_db`. -/
structure ValueRow where
  country_code : String
  indicator_code : String
  year : Int
  value : PyFloat
deriving DecidableEq

/-! ## Normalizer (`database.py`, `process_data_for_db`) -/

/-- `database.py` lines 34-42: the country row appended for one input
record. -/
def mkCountryRow (c : CountryInput) : CountryRow :=
  { country_code := c.code
    name := c.name
    region := c.region
    income_level := c.income_level
    capital := c.capital
    iso2_code := if pyLen c.code ≥ 2 then some (pyLower (pyTake c.code 2)) else none
    iso3_code := if pyLen c.code ≥ 3 then some (pyUpper (pyTake c.code 3)) else none }

/-- `database.py` lines 46-85: handle one indicator occurrence,
updating the deduplicated indicator list and the value list. -/
def processInd (country_code category : String)
    (inds : List IndicatorRow) (vals : List ValueRow) (ind : IndicatorInput) :
    List IndicatorRow × List ValueRow :=
  let indicator_exists := inds.any (fun e => e.indicator_code = ind.code)
  let inds' :=
    if indicator_exists then inds
    else inds ++ [{ indicator_code := ind.code
                    name := ind.name
                    category := some category
                    description := ""
                    source := "Banco Mundial" }]
  let vals' :=
    match ind.value, ind.year with
    | some raw, some y =>
      if y ≠ 0 then
        match coerce_value raw with
        | some v => vals ++ [{ country_code := country_code
                               indicator_code := ind.code
                               year := y
                               value := v }]
        | none => vals
      else vals
    | _, _ => vals
  (inds', vals')

/-- The inner `for indicator in category_indicators` loop. -/
def processInds (country_code category : String)
    (inds : List IndicatorRow) (vals : List ValueRow) :
    List IndicatorInput → List IndicatorRow × List ValueRow
  | [] => (inds, vals)
  | ind :: rest =>
    let (inds', vals') := processInd country_code category inds vals ind
    processInds country_code category inds' vals' rest

/-- The `for category, category_indicators in country.get('indicators', {}).items()` loop. -/
def processCats (country_code : String)
    (inds : List IndicatorRow) (vals : List ValueRow) :
    List (String × List IndicatorInput) → List IndicatorRow × List ValueRow
  | [] => (inds, vals)
  | (category, lst) :: rest =>
    let (inds', vals') := processInds country_code category inds vals lst
    processCats country_code inds' vals' rest

/-- The outer `for country in countries_data` loop. -/
def processCountries (crs : List CountryRow) (inds : List IndicatorRow)
    (vals : List ValueRow) :
    List CountryInput → List CountryRow × List IndicatorRow × List ValueRow
  | [] => (crs, inds, vals)
  | c :: rest =>
    let crs' := crs ++ [mkCountryRow c]
    let (inds', vals') := processCats c.code inds vals c.indicators
    processCountries crs' inds' vals' rest

/-- `database.py`, `process_data_for_db`: flatten the per-country
records into the three table contents. -/
def process_data_for_db (countries_data : List CountryInput) :
    List CountryRow × List IndicatorRow × List ValueRow :=
  processCountries [] [] [] countries_data

/-! ## Occurrence view of the nested input

The nested loops of `process_data_for_db` visit one indicator
occurrence at a time; `allOccs` lists those occurrences in visit
order.  The lemmas below rewrite the three outputs as folds over this
flat list. -/

/-- One indicator occurrence: the country code and category under which
an `IndicatorInput` is visited. -/
structure Occ where
  country_code : String
  category : String
  ind : IndicatorInput
deriving DecidableEq

/-- The occurrences of one country's category map, in visit order. -/
def catOccs (country_code : String) : List (String × List IndicatorInput) → List Occ
  | [] => []
  | (category, lst) :: rest =>
    lst.map (fun i => ⟨country_code, category, i⟩) ++ catOccs country_code rest

/-- All occurrences of an input sequence, in visit order. -/
def allOccs : List CountryInput → List Occ
  | [] => []
  | c :: cs => catOccs c.code c.indicators ++ allOccs cs

/-- The indicator row recorded for an occurrence (when its code is new). -/
def mkIndRow (o : Occ) : IndicatorRow :=
  { indicator_code := o.ind.code
    name := o.ind.name
    category := some o.category
    description := ""
    source := "Banco Mundial" }

/-- One step of the indicator deduplication: append the occurrence's
row unless its code is already present. -/
def addInd (inds : List IndicatorRow) (o : Occ) : List IndicatorRow :=
  if inds.any (fun e => e.indicator_code = o.ind.code) then inds
  else inds ++ [mkIndRow o]

/-- The value row an occurrence emits, if any: the value must be
present, the year present and truthy, and the cleaned value parsable. -/
def emitVal? (o : Occ) : Option ValueRow :=
  match o.ind.value, o.ind.year with
  | some raw, some y =>
    if y ≠ 0 then
      match coerce_value raw with
      | some v => some { country_code := o.country_code
                         indicator_code := o.ind.code
                         year := y
                         value := v }
      | none => none
    else none
  | _, _ => none

/-- The (country_code, indicator_code, year) triple of an emitted row. -/
def valTriple (v : ValueRow) : String × String × Int :=
  (v.country_code, v.indicator_code, v.year)

/-- The (country_code, indicator_code, year) triple of an occurrence
(`0` standing in for an absent year; emitting occurrences always carry
a year). -/
def occTriple (o : Occ) : String × String × Int :=
  (o.country_code, o.ind.code, o.ind.year.getD 0)

/-! ## Extractor — per-country detail (`scraper.py`, `get_country_data`)

Only the pure row-to-indicator logic (lines 139-156) is embedded: the
year regex, the slug and the value text clean-up.  The surrounding
HTTP fetch and HTML traversal are environmental. -/

/-- `re.search(r'\((\d{4})\)', value_text)`: the first occurrence of a
parenthesised four-digit group, scanning left to right. -/
def findYear : List Char → Option Int
  | '(' :: a :: b :: c :: d :: ')' :: rest =>
    if a.isDigit && b.isDigit && c.isDigit && d.isDigit then
      some ((digitsVal [a, b, c, d] : Nat) : Int)
    else findYear (a :: b :: c :: d :: ')' :: rest)
  | _ :: rest => findYear rest
  | [] => none

/-- `re.sub(r'[^a-zA-Z0-9]', '_', indicator_name).lower()`. -/
def slugify (s : String) : String :=
  pyLower ⟨s.data.map (fun c => if c.isAlphanum then c else '_')⟩

/-- `scraper.py` lines 139-156: build the indicator entry from the
trimmed name and value texts of a row: the year is the first
parenthesised four-digit group of the value text (default 2023), the
code is the slugified name, and the value text has the `"(year)"`
substring removed and is trimmed again. -/
def extract_indicator (name_element_text value_element_text : String) : IndicatorInput :=
  let indicator_name := pyStrip name_element_text
  let value_text := pyStrip value_element_text
  let year : Int := (findYear value_text.data).getD 2023
  { name := indicator_name
    code := slugify indicator_name
    value := some (pyStrip (pyReplace value_text ("(" ++ toString year ++ ")") ""))
    year := some year }

/-! ## Extractor — country list (`scraper.py`, `get_country_list`) -/

/-- One candidate country link scraped from the listing page. -/
structure CountryLink where
  url : String
  code : String
  name : String
deriving DecidableEq

/-- `scraper.py` lines 70-77: keep a candidate when its code is unseen
and its display name is non-empty (Python truthiness of `str`),
recording the kept codes in `seen_codes`. -/
def uniqueStep (acc : List CountryLink × List String) (country : CountryLink) :
    List CountryLink × List String :=
  if !acc.2.contains country.code ∧ country.name ≠ "" then
    (acc.1 ++ [country], acc.2 ++ [country.code])
  else acc

/-- The deduplication stage of `get_country_list`. -/
def uniqueLinks (country_links : List CountryLink) : List CountryLink :=
  (country_links.foldl uniqueStep ([], [])).1

/-- First-occurrence deduplication by code, relative to an initial set
of already-seen codes (the specification-side reformulation compared
against `uniqueLinks`). -/
def dedupFrom (seen : List String) : List CountryLink → List CountryLink
  | [] => []
  | l :: ls =>
    if seen.contains l.code then dedupFrom seen ls
    else l :: dedupFrom (seen ++ [l.code]) ls

/-- `get_country_list` around its `try`/`except`: the fallible part
(HTTP fetch and parse, yielding the candidate links) is the argument;
on success the candidates are deduplicated, on any error the function
logs and returns the empty list (`scraper.py` lines 88-90). -/
def get_country_list (attempt : Except String (List CountryLink)) : List CountryLink :=
  match attempt with
  | .ok country_links => uniqueLinks country_links
  | .error _ => []

/-- `get_country_data` around its `try`/`except`: the fallible body
(fetch, parse, extract) is the argument; on any error the function
logs and returns `None` (`scraper.py` lines 170-172). -/
def get_country_data (attempt : Except String CountryInput) : Option CountryInput :=
  match attempt with
  | .ok country_data => some country_data
  | .error _ => none

/-- One iteration of the collection loop of `scripts/setup.py` lines
37-40: append the record only when `get_country_data` returned one. -/
def collectStep (countries_data : List CountryInput) (a : Except String CountryInput) :
    List CountryInput :=
  match get_country_data a with
  | some d => countries_data ++ [d]
  | none => countries_data

/-- `scripts/setup.py` lines 36-40: collect per-country results,
appending only the countries whose extraction returned a record. -/
def collect_country_data (attempts : List (Except String CountryInput)) :
    List CountryInput :=
  attempts.foldl collectStep []

/-! ## Loader (`database.py`, `create_database_from_data`)

The sqlite store is modelled as the three row lists; the function body
is modelled as the sequence of statements it executes, interpreted
over that state.  `CREATE TABLE IF NOT EXISTS` and `CREATE INDEX IF NOT
EXISTS` do not change row contents; pandas `to_sql(..., if_exists=
"replace")` replaces a table's rows wholesale.  Only the success path
is modelled (failures abort with `False` and are environmental). -/

/-- The persisted store: the rows of the three tables. -/
structure DBState where
  countries : List CountryRow
  indicators : List IndicatorRow
  indicator_values : List ValueRow
deriving DecidableEq

/-- One statement executed by `create_database_from_data`. -/
inductive DBOp where
  | createTableIfNotExists : String → DBOp
  | replaceCountries : List CountryRow → DBOp
  | replaceIndicators : List IndicatorRow → DBOp
  | replaceValues : List ValueRow → DBOp
  | createIndexIfNotExists : String → DBOp
deriving DecidableEq

/-- Effect of one statement on the store. -/
def applyOp (db : DBState) : DBOp → DBState
  | .createTableIfNotExists _ => db
  | .replaceCountries rows => { db with countries := rows }
  | .replaceIndicators rows => { db with indicators := rows }
  | .replaceValues rows => { db with indicator_values := rows }
  | .createIndexIfNotExists _ => db

/-- `database.py` lines 103-166: the statements executed on the success
path.  Note the replaces of `indicators` and `indicator_values` are
guarded by `if not ..._df.empty`. -/
def create_database_ops (countries : List CountryRow) (indicators : List IndicatorRow)
    (indicator_values : List ValueRow) : List DBOp :=
  [.createTableIfNotExists "countries",
   .createTableIfNotExists "indicators",
   .createTableIfNotExists "indicator_values",
   .replaceCountries countries]
  ++ (if indicators.isEmpty then [] else [.replaceIndicators indicators])
  ++ (if indicator_values.isEmpty then [] else [.replaceValues indicator_values])
  ++ [.createIndexIfNotExists "idx_country_code",
      .createIndexIfNotExists "idx_indicator_code",
      .createIndexIfNotExists "idx_year",
      .createIndexIfNotExists "idx_country_indicator"]

/-- `database.py`, `create_database_from_data`, success path: run the
statements over the store and report `True`. -/
def create_database_from_data (countries : List CountryRow) (indicators : List IndicatorRow)
    (indicator_values : List ValueRow) (db : DBState) : DBState × Bool :=
  ((create_database_ops countries indicators indicator_values).foldl applyOp db, true)

/-! ## Query Service (`api.py`, `get_country_profile`)

The SQL of lines 175-203 is embedded over `DBState`: the inner join of
`indicator_values` with `indicators` on `indicator_code` filtered to
one country, the window `ROW_NUMBER() OVER (PARTITION BY
i.indicator_code ORDER BY iv.year DESC)` with equal years left in
store row order, the `rank = 1` selection, the `ORDER BY category,
name` (`NULL` first, as in sqlite), and the Python regrouping of
lines 209-221 where a falsy category (None or `""`) falls into the
`"other"` bucket. -/

/-- One row of the joined `RankedIndicators` source (before ranking). -/
structure JoinRow where
  indicator_code : String
  name : String
  category : Option String
  year : Int
  value : PyFloat
deriving DecidableEq

/-- The join `indicator_values iv JOIN indicators i ON iv.indicator_code
= i.indicator_code WHERE iv.country_code = ?`, in store row order of
the values and, within one value, of the matching indicator rows. -/
def profileJoin (db : DBState) (country_code : String) : List JoinRow :=
  (db.indicator_values.filter (fun v => v.country_code = country_code)).flatMap
    (fun v =>
      (db.indicators.filter (fun i => i.indicator_code = v.indicator_code)).map
        (fun i => ⟨i.indicator_code, i.name, i.category, v.year, v.value⟩))

/-- The `rank = 1` row of one partition: the first row (in store row
order) whose year is maximal, i.e. the row numbered 1 by `ROW_NUMBER()
... ORDER BY iv.year DESC` with ties left in row order. -/
def rankOneRow (part : List JoinRow) : Option JoinRow :=
  part.find? (fun q => part.all (fun p => p.year ≤ q.year))

/-- Record one row's partition key if not yet recorded. -/
def seenStep (acc : List String) (r : JoinRow) : List String :=
  if acc.contains r.indicator_code then acc else acc ++ [r.indicator_code]

/-- The distinct partition keys (indicator codes) of the joined rows,
each listed once, in first-appearance order. -/
def seenJoinCodes (rows : List JoinRow) : List String :=
  rows.foldl seenStep []

/-- The `rank = 1` rows, one per partition. -/
def rankedRows (rows : List JoinRow) : List JoinRow :=
  (seenJoinCodes rows).filterMap
    (fun c => rankOneRow (rows.filter (fun r => r.indicator_code = c)))

/-- sqlite `ORDER BY category, name` comparison: `NULL` sorts before
any text, text is compared lexicographically. -/
def catLT : Option String → Option String → Bool
  | none, some _ => true
  | some a, some b => decide (a < b)
  | _, _ => false

/-- Row comparison for `ORDER BY category, name`. -/
def rowLE (x y : JoinRow) : Bool :=
  catLT x.category y.category ||
    (x.category = y.category && decide (x.name ≤ y.name))

/-- Stable insertion into a sorted list (rows comparing equal keep
their relative order). -/
def insertRow (a : JoinRow) : List JoinRow → List JoinRow
  | [] => [a]
  | b :: bs => if rowLE b a then b :: insertRow a bs else a :: b :: bs

/-- Stable insertion sort implementing `ORDER BY category, name`. -/
def sortRows : List JoinRow → List JoinRow
  | [] => []
  | a :: rest => insertRow a (sortRows rest)

/-- One entry of the returned profile. -/
structure ProfileEntry where
  indicator_code : String
  name : String
  value : PyFloat
  year : Int
deriving DecidableEq

/-- The profile entry built from a ranked row (`api.py` lines 216-221). -/
def mkEntry (r : JoinRow) : ProfileEntry :=
  ⟨r.indicator_code, r.name, r.value, r.year⟩

/-- `api.py` line 211: `indicator["category"] or "other"` — a falsy
category (NULL or the empty string) falls into the `"other"` bucket. -/
def bucketOf (category : Option String) : String :=
  match category with
  | none => "other"
  | some c => if c = "" then "other" else c

/-- Append an entry to its category bucket, creating the bucket at the
end on first use (Python dict insertion order). -/
def addToBucket (acc : List (String × List ProfileEntry)) (b : String) (e : ProfileEntry) :
    List (String × List ProfileEntry) :=
  if acc.any (fun p => p.1 = b) then
    acc.map (fun p => if p.1 = b then (p.1, p.2 ++ [e]) else p)
  else acc ++ [(b, [e])]

/-- `api.py` lines 209-221: regroup the ranked rows by bucket. -/
def groupRows (rows : List JoinRow) : List (String × List ProfileEntry) :=
  rows.foldl (fun acc r => addToBucket acc (bucketOf r.category) (mkEntry r)) []

/-- The profile body computed for an existing country. -/
def country_profile (db : DBState) (country_code : String) :
    List (String × List ProfileEntry) :=
  groupRows (sortRows (rankedRows (profileJoin db country_code)))

/-- `api.py`, `get_country_profile`: 404 (`none`) when the country is
absent, otherwise the grouped profile. -/
def get_country_profile (db : DBState) (country_code : String) :
    Option (List (String × List ProfileEntry)) :=
  if db.countries.any (fun c => c.country_code = country_code) then
    some (country_profile db country_code)
  else none

/-- The profile flattened back to (bucket, entry) pairs. -/
def flattenProfile (p : List (String × List ProfileEntry)) : List (String × ProfileEntry) :=
  p.flatMap (fun be => be.2.map (fun e => (be.1, e)))

/-! ## CLI entry point (`scripts/setup.py`, `__main__`) -/

/-- Non-empty digit run with single underscores allowed between
digits, as accepted inside a Python integer literal string. -/
def intDigits : List Char → Bool
  | [] => false
  | [c] => c.isDigit
  | c :: '_' :: rest => c.isDigit && intDigits rest
  | c :: rest => c.isDigit && intDigits rest

/-- Signed value of a digit-and-underscore run. -/
def intDigitsVal (neg : Bool) (cs : List Char) : Int :=
  let n : Nat := digitsVal (cs.filter (fun c => c ≠ '_'))
  if neg then -(n : Int) else (n : Int)

/-- Python `int(s)`: optional surrounding whitespace, an optional
sign, then digits (underscores allowed between digits); anything else
raises `ValueError`, modelled as `none`. -/
def pyInt? (s : String) : Option Int :=
  let cs := (pyStrip s).data
  let (neg, rest) :=
    match cs with
    | '-' :: r => (true, r)
    | '+' :: r => (false, r)
    | _ => (false, cs)
  if intDigits rest then some (intDigitsVal neg rest) else none

/-- `scripts/setup.py` lines 53-59: `limit = 10`, replaced by
`int(sys.argv[1])` when a first argument is present and parses; a
`ValueError` keeps the default. -/
def parse_limit_arg (argv : List String) : Int :=
  match argv with
  | _prog :: a :: _ => match pyInt? a with | some n => n | none => 10
  | _ => 10

/-- `scripts/setup.py` lines 61-67: run the pipeline with the parsed
limit; exit status 1 on failure, 0 on success (falling off the end of
the script). -/
def cli_main (setup_data : Int → Bool) (argv : List String) : Nat :=
  let limit := parse_limit_arg argv
  let success := setup_data limit
  if success then 0 else 1

/-! ## Lemmas: the normalizer as folds over the occurrence list -/

/-- One `processInd` step splits into the indicator step and the value
step. -/
theorem processInd_eq (country_code category : String) (inds : List IndicatorRow)
    (vals : List ValueRow) (ind : IndicatorInput) :
    processInd country_code category inds vals ind =
      (addInd inds ⟨country_code, category, ind⟩,
       vals ++ (emitVal? ⟨country_code, category, ind⟩).toList) := by
  unfold processInd addInd emitVal? mkIndRow
  cases ind.value with
  | none => simp
  | some raw =>
    cases ind.year with
    | none => simp
    | some y =>
      by_cases hy : y ≠ 0
      · cases h : coerce_value raw <;> simp [hy, h]
      · simp [hy]

/-- The inner indicator loop as a pair of folds over its occurrences. -/
theorem processInds_eq (country_code category : String) :
    ∀ (lst : List IndicatorInput) (inds : List IndicatorRow) (vals : List ValueRow),
      processInds country_code category inds vals lst =
        ((lst.map (fun i => Occ.mk country_code category i)).foldl addInd inds,
         vals ++ (lst.map (fun i => Occ.mk country_code category i)).filterMap emitVal?) := by
  intro lst
  induction lst with
  | nil => intro inds vals; simp [processInds]
  | cons ind rest ih =>
    intro inds vals
    simp only [processInds, processInd_eq, ih, List.map_cons, List.foldl_cons,
      List.filterMap_cons]
    cases h : emitVal? ⟨country_code, category, ind⟩ <;> simp

/-- The category loop as a pair of folds over the country's occurrences. -/
theorem processCats_eq (country_code : String) :
    ∀ (cats : List (String × List IndicatorInput)) (inds : List IndicatorRow)
      (vals : List ValueRow),
      processCats country_code inds vals cats =
        ((catOccs country_code cats).foldl addInd inds,
         vals ++ (catOccs country_code cats).filterMap emitVal?) := by
  intro cats
  induction cats with
  | nil => intro inds vals; simp [processCats, catOccs]
  | cons p rest ih =>
    intro inds vals
    obtain ⟨category, lst⟩ := p
    simp only [processCats, processInds_eq, ih, catOccs, List.foldl_append,
      List.filterMap_append, List.append_assoc]

/-- The country loop as folds over all occurrences. -/
theorem processCountries_eq :
    ∀ (cs : List CountryInput) (crs : List CountryRow) (inds : List IndicatorRow)
      (vals : List ValueRow),
      processCountries crs inds vals cs =
        (crs ++ cs.map mkCountryRow,
         (allOccs cs).foldl addInd inds,
         vals ++ (allOccs cs).filterMap emitVal?) := by
  intro cs
  induction cs with
  | nil => intro crs inds vals; simp [processCountries, allOccs]
  | cons c rest ih =>
    intro crs inds vals
    simp only [processCountries, processCats_eq, ih, allOccs, List.map_cons,
      List.foldl_append, List.filterMap_append, List.append_assoc,
      List.cons_append, List.nil_append, List.singleton_append]

/-- `process_data_for_db`, restated over the flat occurrence list. -/
theorem process_eq (cs : List CountryInput) :
    process_data_for_db cs =
      (cs.map mkCountryRow,
       (allOccs cs).foldl addInd [],
       (allOccs cs).filterMap emitVal?) := by
  simp [process_data_for_db, processCountries_eq]

/-! ## Lemmas: indicator deduplication -/

/-- Folding `addInd` keeps the indicator codes pairwise distinct. -/
theorem foldl_addInd_nodup :
    ∀ (os : List Occ) (inds : List IndicatorRow),
      ((inds.map (fun r => r.indicator_code)).Nodup) →
      (((os.foldl addInd inds).map (fun r => r.indicator_code)).Nodup) := by
  intro os
  induction os with
  | nil => intro inds h; simpa using h
  | cons o rest ih =>
    intro inds h
    simp only [List.foldl_cons]
    apply ih
    by_cases ha : inds.any (fun e => e.indicator_code = o.ind.code)
    · simpa [addInd, ha] using h
    · have hnotin : o.ind.code ∉ inds.map (fun r => r.indicator_code) := by
        intro hmem
        obtain ⟨e, he, heq⟩ := List.mem_map.mp hmem
        exact ha (List.any_eq_true.mpr ⟨e, he, by simp [heq]⟩)
      simp only [addInd, ha, if_false, Bool.false_eq_true, List.map_append,
        List.map_cons, List.map_nil]
      rw [List.nodup_append]
      exact ⟨h, List.nodup_singleton _, by
        intro x hx hy
        simp only [List.mem_singleton] at hy
        subst hy
        simp only [mkIndRow] at hx
        exact hnotin hx⟩

/-- `Option.or` with a `some` on the left. -/
theorem optSomeOr {α : Type} (a : α) (o : Option α) : (some a).or o = some a := rfl

/-- Folding `addInd` retains, for each code, the row of the first
occurrence: lookup in the result extends lookup in the accumulator by
lookup of the first matching occurrence. -/
theorem foldl_addInd_find? :
    ∀ (os : List Occ) (inds : List IndicatorRow) (code : String),
      (os.foldl addInd inds).find? (fun r => r.indicator_code = code) =
        ((inds.find? (fun r => r.indicator_code = code)).or
          ((os.find? (fun o => o.ind.code = code)).map mkIndRow)) := by
  intro os
  induction os with
  | nil => intro inds code; simp
  | cons o rest ih =>
    intro inds code
    simp only [List.foldl_cons, ih]
    by_cases ha : inds.any (fun e => e.indicator_code = o.ind.code)
    · by_cases hoc : o.ind.code = code
      · obtain ⟨e, he, heq⟩ := List.any_eq_true.mp ha
        simp only [decide_eq_true_eq] at heq
        have hsome : (inds.find? (fun r => r.indicator_code = code)).isSome := by
          apply List.find?_isSome.mpr
          exact ⟨e, he, by simp [heq, hoc]⟩
        obtain ⟨x, hx⟩ := Option.isSome_iff_exists.mp hsome
        simp [addInd, ha, hx, optSomeOr]
      · have hrw : (o :: rest).find? (fun o => o.ind.code = code) =
            rest.find? (fun o => o.ind.code = code) :=
          List.find?_cons_of_neg _ (by simp [hoc])
        simp [addInd, ha, hrw]
    · by_cases hoc : o.ind.code = code
      · have hn : inds.find? (fun r => r.indicator_code = code) = none := by
          apply List.find?_eq_none.mpr
          intro x hx
          simp only [decide_eq_true_eq]
          intro hcontra
          exact ha (List.any_eq_true.mpr ⟨x, hx, by simp [hcontra, hoc]⟩)
        have hfind1 : ([mkIndRow o].find? (fun r => r.indicator_code = code)) =
            some (mkIndRow o) :=
          List.find?_cons_of_pos _ (by simp [mkIndRow, hoc])
        have hfind2 : (o :: rest).find? (fun o => o.ind.code = code) = some o :=
          List.find?_cons_of_pos _ (by simp [hoc])
        simp [addInd, ha, List.find?_append, hn, hfind1, hfind2, optSomeOr]
      · have hfind1 : ([mkIndRow o].find? (fun r => r.indicator_code = code)) = none := by
          apply List.find?_eq_none.mpr
          intro x hx
          simp only [List.mem_singleton] at hx
          subst hx
          simp [mkIndRow, hoc]
        have hfind2 : (o :: rest).find? (fun o => o.ind.code = code) =
            rest.find? (fun o => o.ind.code = code) :=
          List.find?_cons_of_neg _ (by simp [hoc])
        simp [addInd, ha, List.find?_append, hfind1, hfind2]

/-! ## Lemmas: emitted values -/

/-- An emitted row carries its occurrence's (country, code, year) triple. -/
theorem emitVal?_triple (o : Occ) (v : ValueRow) (h : emitVal? o = some v) :
    valTriple v = occTriple o := by
  unfold emitVal? at h
  cases hv : o.ind.value with
  | none => simp [hv] at h
  | some raw =>
    cases hy : o.ind.year with
    | none => simp [hv, hy] at h
    | some y =>
      simp only [hv, hy] at h
      by_cases hz : y ≠ 0
      · rw [if_pos hz] at h
        cases hc : coerce_value raw with
        | none => simp [hc] at h
        | some w =>
          simp only [hc] at h
          cases h
          simp [valTriple, occTriple, hy]
      · simp [hz] at h

/-- The emitted triples are exactly the triples of the emitting
occurrences, in order. -/
theorem filterMap_emit_triples :
    ∀ os : List Occ,
      ((os.filterMap emitVal?).map valTriple) =
        ((os.filter (fun o => (emitVal? o).isSome)).map occTriple) := by
  intro os
  induction os with
  | nil => simp
  | cons o rest ih =>
    cases h : emitVal? o with
    | none => simp [List.filterMap_cons, List.filter_cons, h, ih]
    | some v =>
      simp [List.filterMap_cons, List.filter_cons, h, ih, emitVal?_triple o v h]

/-! ## Lemmas: country-list deduplication -/

/-- `List.contains` on strings is membership. -/
theorem containsStr (l : List String) (a : String) : l.contains a = true ↔ a ∈ l := by
  simp [List.contains_eq_any_beq, List.any_eq_true, beq_iff_eq, eq_comm]

/-- The fold of `uniqueStep` is `dedupFrom` of the name-filtered input,
relative to any starting accumulator. -/
theorem uniqueStep_foldl :
    ∀ (links : List CountryLink) (kept : List CountryLink) (seen : List String),
      (links.foldl uniqueStep (kept, seen)).1 =
        kept ++ dedupFrom seen (links.filter (fun l => l.name ≠ "")) := by
  intro links
  induction links with
  | nil => intro kept seen; simp [dedupFrom]
  | cons l ls ih =>
    intro kept seen
    by_cases hn : l.name = ""
    · have hstep : uniqueStep (kept, seen) l = (kept, seen) := by
        unfold uniqueStep
        rw [if_neg]
        intro hcond
        exact hcond.2 hn
      simp [List.foldl_cons, hstep, List.filter_cons, hn, ih]
    · by_cases hc : seen.contains l.code
      · have hstep : uniqueStep (kept, seen) l = (kept, seen) := by
          unfold uniqueStep
          rw [if_neg]
          intro hcond
          simp only [hc, Bool.not_true, Bool.false_eq_true] at hcond
          exact hcond.1
        have hded : dedupFrom seen (l :: ls.filter (fun l => !decide (l.name = ""))) =
            dedupFrom seen (ls.filter (fun l => !decide (l.name = ""))) := by
          rw [dedupFrom, if_pos hc]
        simp only [List.foldl_cons, hstep, ih, List.filter_cons, hn, decide_False,
          Bool.not_false, if_true, decide_not]
        rw [hded]
      · have hstep : uniqueStep (kept, seen) l = (kept ++ [l], seen ++ [l.code]) := by
          unfold uniqueStep
          rw [if_pos]
          refine ⟨?_, hn⟩
          simpa using hc
        have hded : dedupFrom seen (l :: ls.filter (fun l => !decide (l.name = ""))) =
            l :: dedupFrom (seen ++ [l.code]) (ls.filter (fun l => !decide (l.name = ""))) := by
          rw [dedupFrom, if_neg hc]
        simp only [List.foldl_cons, hstep, ih, List.filter_cons, hn, decide_False,
          Bool.not_false, if_true, decide_not]
        rw [hded]
        simp

/-- A link kept by `dedupFrom` comes from the input and its code was
not already seen. -/
theorem dedupFrom_mem :
    ∀ (ls : List CountryLink) (seen : List String) (x : CountryLink),
      x ∈ dedupFrom seen ls → x ∈ ls ∧ x.code ∉ seen := by
  intro ls
  induction ls with
  | nil => intro seen x hx; simp [dedupFrom] at hx
  | cons l rest ih =>
    intro seen x hx
    by_cases hc : seen.contains l.code
    · rw [dedupFrom, if_pos hc] at hx
      obtain ⟨hmem, hseen⟩ := ih seen x hx
      exact ⟨List.mem_cons_of_mem _ hmem, hseen⟩
    · rw [dedupFrom, if_neg hc] at hx
      rcases List.mem_cons.mp hx with hx | hx
      · subst hx
        refine ⟨List.mem_cons_self _ _, fun hmem => ?_⟩
        exact hc ((containsStr _ _).mpr hmem)
      · obtain ⟨hmem, hseen⟩ := ih (seen ++ [l.code]) x hx
        refine ⟨List.mem_cons_of_mem _ hmem, fun hs => ?_⟩
        exact hseen (List.mem_append_left _ hs)

/-- `dedupFrom` yields pairwise distinct codes. -/
theorem dedupFrom_nodup :
    ∀ (ls : List CountryLink) (seen : List String),
      ((dedupFrom seen ls).map (fun l => l.code)).Nodup := by
  intro ls
  induction ls with
  | nil => intro seen; simp [dedupFrom]
  | cons l rest ih =>
    intro seen
    by_cases hc : seen.contains l.code
    · rw [dedupFrom, if_pos hc]; exact ih seen
    · rw [dedupFrom, if_neg hc]
      simp only [List.map_cons, List.nodup_cons]
      refine ⟨fun hmem => ?_, ih (seen ++ [l.code])⟩
      obtain ⟨x, hx, hcode⟩ := List.mem_map.mp hmem
      obtain ⟨_, hseen⟩ := dedupFrom_mem _ _ _ hx
      exact hseen (by simp [hcode])

/-! ## Lemmas: per-country collection -/

/-- The collection loop of `setup.py` keeps exactly the successful
extractions, in order. -/
theorem collect_eq_filterMap :
    ∀ (attempts : List (Except String CountryInput)) (acc : List CountryInput),
      attempts.foldl collectStep acc = acc ++ attempts.filterMap get_country_data := by
  intro attempts
  induction attempts with
  | nil => intro acc; simp
  | cons a rest ih =>
    intro acc
    cases a with
    | ok d =>
      rw [List.foldl_cons, ih]
      simp [collectStep, get_country_data, List.filterMap_cons]
    | error e =>
      rw [List.foldl_cons, ih]
      simp [collectStep, get_country_data, List.filterMap_cons]

/-! ## Lemmas: the profile query -/

/-- Inserting keeps the rows up to permutation. -/
theorem insertRow_perm : ∀ (l : List JoinRow) (a : JoinRow), (insertRow a l).Perm (a :: l) := by
  intro l
  induction l with
  | nil => intro a; simp [insertRow]
  | cons b bs ih =>
    intro a
    rw [insertRow]
    by_cases h : rowLE b a
    · rw [if_pos h]
      exact ((ih a).cons b).trans (List.Perm.swap a b bs)
    · rw [if_neg h]

/-- Sorting keeps the rows up to permutation. -/
theorem sortRows_perm : ∀ l : List JoinRow, (sortRows l).Perm l := by
  intro l
  induction l with
  | nil => simp [sortRows]
  | cons a rest ih =>
    rw [sortRows]
    exact (insertRow_perm (sortRows rest) a).trans (ih.cons a)

/-- `addToBucket` keeps the bucket keys unchanged or appends the new one. -/
theorem addToBucket_keys (acc : List (String × List ProfileEntry)) (b : String)
    (e : ProfileEntry) :
    (addToBucket acc b e).map (fun p => p.1) =
      if acc.any (fun p => p.1 = b) then acc.map (fun p => p.1)
      else acc.map (fun p => p.1) ++ [b] := by
  unfold addToBucket
  by_cases h : acc.any (fun p => p.1 = b)
  · simp only [h, if_true, List.map_map]
    apply List.map_congr_left
    intro p _
    by_cases hp : p.1 = b <;> simp [hp]
  · simp [h]

/-- `addToBucket` preserves distinctness of the bucket keys. -/
theorem addToBucket_keys_nodup (acc : List (String × List ProfileEntry)) (b : String)
    (e : ProfileEntry) (h : ((acc.map (fun p => p.1)).Nodup)) :
    (((addToBucket acc b e).map (fun p => p.1)).Nodup) := by
  rw [addToBucket_keys]
  by_cases ha : acc.any (fun p => p.1 = b)
  · simpa [ha] using h
  · have hb : b ∉ acc.map (fun p => p.1) := by
      intro hmem
      obtain ⟨p, hp, hpb⟩ := List.mem_map.mp hmem
      exact ha (List.any_eq_true.mpr ⟨p, hp, by simp [hpb]⟩)
    simp only [ha, if_false, Bool.false_eq_true]
    rw [List.nodup_append]
    exact ⟨h, List.nodup_singleton _, by
      intro x hx hy
      simp only [List.mem_singleton] at hy
      subst hy
      exact hb hx⟩

/-- `flattenProfile` distributes over append. -/
theorem flattenProfile_append (x y : List (String × List ProfileEntry)) :
    flattenProfile (x ++ y) = flattenProfile x ++ flattenProfile y := by
  simp [flattenProfile]

/-- `flattenProfile` on a cons. -/
theorem flattenProfile_cons (q : String × List ProfileEntry)
    (l : List (String × List ProfileEntry)) :
    flattenProfile (q :: l) = q.2.map (fun e => (q.1, e)) ++ flattenProfile l := by
  simp [flattenProfile]

/-- Adding an entry to its bucket adds exactly that (bucket, entry)
pair, up to permutation, provided bucket keys are distinct. -/
theorem flatten_addToBucket (b : String) (e : ProfileEntry) :
    ∀ (acc : List (String × List ProfileEntry)),
      ((acc.map (fun p => p.1)).Nodup) →
      (flattenProfile (addToBucket acc b e)).Perm (flattenProfile acc ++ [(b, e)]) := by
  intro acc
  induction acc with
  | nil => intro _; simp [addToBucket, flattenProfile]
  | cons p ps ih =>
    intro h
    simp only [List.map_cons, List.nodup_cons] at h
    obtain ⟨hpk, hps⟩ := h
    by_cases hpb : p.1 = b
    · have hany : (p :: ps).any (fun q => q.1 = b) = true :=
        List.any_eq_true.mpr ⟨p, List.mem_cons_self _ _, by simp [hpb]⟩
      have hps_id : ps.map (fun q => if q.1 = b then (q.1, q.2 ++ [e]) else q) = ps := by
        have hcongr : ps.map (fun q => if q.1 = b then (q.1, q.2 ++ [e]) else q) =
            ps.map id := by
          apply List.map_congr_left
          intro q hq
          have hqb : q.1 ≠ b := by
            intro hq1
            exact hpk (List.mem_map.mpr ⟨q, hq, by rw [hq1, hpb]⟩)
          simp [hqb]
        simpa using hcongr
      have hres : addToBucket (p :: ps) b e = (p.1, p.2 ++ [e]) :: ps := by
        unfold addToBucket
        rw [if_pos hany]
        simp [hpb, hps_id]
      rw [hres, flattenProfile_cons, flattenProfile_cons]
      simp only [List.map_append, List.map_cons, List.map_nil]
      rw [List.append_assoc, List.append_assoc]
      apply List.Perm.append_left
      rw [← hpb]
      exact List.perm_append_comm
    · by_cases hany : ps.any (fun q => q.1 = b)
      · have hany' : (p :: ps).any (fun q => q.1 = b) = true := by
          simp only [List.any_cons, hany, Bool.or_true]
        have hres : addToBucket (p :: ps) b e =
            p :: ps.map (fun q => if q.1 = b then (q.1, q.2 ++ [e]) else q) := by
          unfold addToBucket
          rw [if_pos hany']
          simp [hpb]
        have hsub : addToBucket ps b e =
            ps.map (fun q => if q.1 = b then (q.1, q.2 ++ [e]) else q) := by
          unfold addToBucket
          rw [if_pos hany]
        rw [hres, flattenProfile_cons, flattenProfile_cons, ← hsub]
        rw [List.append_assoc]
        exact List.Perm.append_left _ (ih hps)
      · have hany' : (p :: ps).any (fun q => q.1 = b) = false := by
          simp only [List.any_cons, hany, Bool.or_false]
          simp [hpb]
        have hres : addToBucket (p :: ps) b e = (p :: ps) ++ [(b, [e])] := by
          unfold addToBucket
          rw [if_neg]
          simp [hany']
        rw [hres, flattenProfile_append]
        simp [flattenProfile]

/-- Regrouping preserves the (bucket, entry) pairs up to permutation. -/
theorem groupRows_flatten_aux :
    ∀ (rows : List JoinRow) (acc : List (String × List ProfileEntry)),
      ((acc.map (fun p => p.1)).Nodup) →
      (flattenProfile
          (rows.foldl (fun acc r => addToBucket acc (bucketOf r.category) (mkEntry r)) acc)).Perm
        (flattenProfile acc ++ rows.map (fun r => (bucketOf r.category, mkEntry r))) := by
  intro rows
  induction rows with
  | nil => intro acc _; simp
  | cons r rest ih =>
    intro acc hacc
    simp only [List.foldl_cons, List.map_cons]
    have h1 := ih (addToBucket acc (bucketOf r.category) (mkEntry r))
      (addToBucket_keys_nodup acc _ _ hacc)
    have h2 : (flattenProfile (addToBucket acc (bucketOf r.category) (mkEntry r)) ++
        rest.map (fun r => (bucketOf r.category, mkEntry r))).Perm
        ((flattenProfile acc ++ [(bucketOf r.category, mkEntry r)]) ++
          rest.map (fun r => (bucketOf r.category, mkEntry r))) :=
      (flatten_addToBucket _ _ acc hacc).append_right _
    refine (h1.trans h2).trans ?_
    rw [List.append_assoc]
    simp

/-- The flattened profile groups are the ranked rows' (bucket, entry)
pairs, up to permutation. -/
theorem groupRows_flatten (rows : List JoinRow) :
    (flattenProfile (groupRows rows)).Perm
      (rows.map (fun r => (bucketOf r.category, mkEntry r))) := by
  have h := groupRows_flatten_aux rows [] (by simp)
  simpa [groupRows, flattenProfile] using h

/-- A non-empty list of joined rows has a row of maximal year. -/
theorem exists_max_year :
    ∀ (part : List JoinRow), part ≠ [] → ∃ q ∈ part, ∀ p ∈ part, p.year ≤ q.year := by
  intro part
  induction part with
  | nil => intro h; exact absurd rfl h
  | cons a rest ih =>
    intro _
    cases rest with
    | nil => exact ⟨a, List.mem_cons_self _ _, by intro p hp; simp at hp; simp [hp]⟩
    | cons b bs =>
      obtain ⟨q, hq, hmax⟩ := ih (by simp)
      rcases le_total a.year q.year with hle | hle
      · refine ⟨q, List.mem_cons_of_mem _ hq, ?_⟩
        intro p hp
        rcases List.mem_cons.mp hp with hp | hp
        · subst hp; exact hle
        · exact hmax p hp
      · refine ⟨a, List.mem_cons_self _ _, ?_⟩
        intro p hp
        rcases List.mem_cons.mp hp with hp | hp
        · subst hp; exact le_refl _
        · exact le_trans (hmax p hp) hle

/-- A non-empty partition has a `rank = 1` row. -/
theorem rankOneRow_isSome (part : List JoinRow) (h : part ≠ []) :
    (rankOneRow part).isSome := by
  obtain ⟨q, hq, hmax⟩ := exists_max_year part h
  apply List.find?_isSome.mpr
  refine ⟨q, hq, ?_⟩
  apply List.all_eq_true.mpr
  intro p hp
  simp [hmax p hp]

/-- What the `rank = 1` row is: a member of the partition, of maximal
year, preceded in the partition only by rows of strictly smaller year. -/
theorem rankOneRow_spec (part : List JoinRow) (r : JoinRow)
    (h : rankOneRow part = some r) :
    r ∈ part ∧ (∀ q ∈ part, q.year ≤ r.year) ∧
      ∃ as bs, part = as ++ r :: bs ∧ ∀ a ∈ as, a.year < r.year := by
  obtain ⟨hpred, as, bs, hsplit, hbefore⟩ := List.find?_eq_some.mp h
  have hmax : ∀ q ∈ part, q.year ≤ r.year := by
    intro q hq
    have := List.all_eq_true.mp hpred q hq
    simpa using this
  refine ⟨?_, hmax, as, bs, hsplit, ?_⟩
  · rw [hsplit]; exact List.mem_append_right _ (List.mem_cons_self _ _)
  · intro a ha
    have hnot := hbefore a ha
    have hf : part.all (fun p => decide (p.year ≤ a.year)) = false := by
      cases hall : part.all (fun p => decide (p.year ≤ a.year)) with
      | false => rfl
      | true => rw [hall] at hnot; simp at hnot
    obtain ⟨p, hp, hpy⟩ := List.all_eq_false.mp hf
    have hlt : a.year < p.year := by
      simp only [decide_eq_true_eq] at hpy
      exact lt_of_not_le hpy
    exact lt_of_lt_of_le hlt (hmax p hp)

/-- Membership in the accumulated partition keys. -/
theorem seenStep_foldl_mem :
    ∀ (rows : List JoinRow) (acc : List String) (c : String),
      c ∈ rows.foldl seenStep acc ↔ (c ∈ acc ∨ ∃ r ∈ rows, r.indicator_code = c) := by
  intro rows
  induction rows with
  | nil => intro acc c; simp
  | cons r rest ih =>
    intro acc c
    rw [List.foldl_cons, ih]
    by_cases hc : acc.contains r.indicator_code
    · have hstep : seenStep acc r = acc := by rw [seenStep, if_pos hc]
      rw [hstep]
      constructor
      · rintro (h | ⟨x, hx, he⟩)
        · exact Or.inl h
        · exact Or.inr ⟨x, List.mem_cons_of_mem _ hx, he⟩
      · rintro (h | ⟨x, hx, he⟩)
        · exact Or.inl h
        · rcases List.mem_cons.mp hx with hx | hx
          · subst hx
            exact Or.inl (he ▸ (containsStr _ _).mp hc)
          · exact Or.inr ⟨x, hx, he⟩
    · have hstep : seenStep acc r = acc ++ [r.indicator_code] := by rw [seenStep, if_neg hc]
      rw [hstep]
      constructor
      · rintro (h | h)
        · rcases List.mem_append.mp h with h | h
          · exact Or.inl h
          · simp only [List.mem_singleton] at h
            exact Or.inr ⟨r, List.mem_cons_self _ _, h.symm⟩
        · obtain ⟨x, hx, he⟩ := h
          exact Or.inr ⟨x, List.mem_cons_of_mem _ hx, he⟩
      · rintro (h | ⟨x, hx, he⟩)
        · exact Or.inl (List.mem_append_left _ h)
        · rcases List.mem_cons.mp hx with hx | hx
          · subst hx
            exact Or.inl (List.mem_append_right _ (by simp [he]))
          · exact Or.inr ⟨x, hx, he⟩

/-- The accumulated partition keys stay pairwise distinct. -/
theorem seenStep_foldl_nodup :
    ∀ (rows : List JoinRow) (acc : List String), acc.Nodup →
      (rows.foldl seenStep acc).Nodup := by
  intro rows
  induction rows with
  | nil => intro acc h; simpa using h
  | cons r rest ih =>
    intro acc h
    rw [List.foldl_cons]
    apply ih
    by_cases hc : acc.contains r.indicator_code
    · rw [seenStep, if_pos hc]; exact h
    · rw [seenStep, if_neg hc]
      rw [List.nodup_append]
      refine ⟨h, List.nodup_singleton _, ?_⟩
      intro x hx hy
      simp only [List.mem_singleton] at hy
      subst hy
      exact hc ((containsStr _ _).mpr hx)

/-- The partition keys of a row list: distinct, and exactly the codes
occurring in the rows. -/
theorem seenJoinCodes_spec (rows : List JoinRow) :
    (seenJoinCodes rows).Nodup ∧
      ∀ c, c ∈ seenJoinCodes rows ↔ ∃ r ∈ rows, r.indicator_code = c := by
  constructor
  · exact seenStep_foldl_nodup rows [] (List.nodup_nil)
  · intro c
    rw [seenJoinCodes, seenStep_foldl_mem]
    simp

/-- A `rank = 1` row of the partition for code `c` carries code `c`. -/
theorem rankOneRow_code (rows : List JoinRow) (c : String) (r : JoinRow)
    (h : rankOneRow (rows.filter (fun q => q.indicator_code = c)) = some r) :
    r.indicator_code = c := by
  obtain ⟨hmem, _, _⟩ := rankOneRow_spec _ _ h
  exact of_decide_eq_true (List.mem_filter.mp hmem).2

/-- Filtering the one-per-partition rows for an absent code yields
nothing. -/
theorem rankedRows_filter_absent (codes : List String) (f : String → Option JoinRow)
    (code : String) (hf : ∀ c r, f c = some r → r.indicator_code = c)
    (habs : code ∉ codes) :
    (codes.filterMap f).filter (fun r => r.indicator_code = code) = [] := by
  induction codes with
  | nil => simp
  | cons c cs ih =>
    have hne : code ≠ c := fun h => habs (h ▸ List.mem_cons_self _ _)
    have habs' : code ∉ cs := fun h => habs (List.mem_cons_of_mem _ h)
    rw [List.filterMap_cons]
    cases hfc : f c with
    | none => exact ih habs'
    | some r =>
      rw [List.filter_cons]
      have hrc : r.indicator_code = c := hf c r hfc
      have hcond : (decide (r.indicator_code = code)) = false := by
        simp only [hrc, decide_eq_false_iff_not]
        intro h
        exact hne h.symm
      rw [hcond]
      simp only [Bool.false_eq_true, if_false]
      exact ih habs'

/-- Filtering the one-per-partition rows for a present code yields
exactly that partition's row. -/
theorem rankedRows_filter_present (codes : List String) (f : String → Option JoinRow)
    (code : String) (hf : ∀ c r, f c = some r → r.indicator_code = c)
    (hnd : codes.Nodup) (hmem : code ∈ codes) :
    (codes.filterMap f).filter (fun r => r.indicator_code = code) = (f code).toList := by
  induction codes with
  | nil => simp at hmem
  | cons c cs ih =>
    rw [List.nodup_cons] at hnd
    obtain ⟨hcnotin, hndcs⟩ := hnd
    rw [List.filterMap_cons]
    by_cases hcc : code = c
    · subst hcc
      cases hfc : f code with
      | none =>
        simp only [Option.toList_none]
        exact rankedRows_filter_absent cs f code hf hcnotin
      | some r =>
        rw [List.filter_cons]
        have hrc : r.indicator_code = code := hf code r hfc
        simp only [hrc, decide_True, if_true, Option.toList_some]
        rw [rankedRows_filter_absent cs f code hf hcnotin]
    · have hmem' : code ∈ cs := by
        rcases List.mem_cons.mp hmem with h | h
        · exact absurd h hcc
        · exact h
      cases hfc : f c with
      | none => exact ih hndcs hmem'
      | some r =>
        rw [List.filter_cons]
        have hrc : r.indicator_code = c := hf c r hfc
        have hcond : (decide (r.indicator_code = code)) = false := by
          simp only [hrc, decide_eq_false_iff_not]
          intro h
          exact hcc h.symm
        rw [hcond]
        simp only [Bool.false_eq_true, if_false]
        exact ih hndcs hmem'

/-! ## Claim theorems -/

/-- C1 (counterexample): the (country_code, indicator_code, year)
triple is not always unique in the Normalizer's output: one country
record carrying two occurrences of the same indicator code with the
same year emits two value rows with the same triple. -/
theorem c1_counterexample :
    ((process_data_for_db
        [⟨"BRA", "Brazil", none, none, none,
          [("economic",
            [⟨"GDP", "gdp", some "1", some 2020⟩,
             ⟨"GDP again", "gdp", some "2", some 2020⟩])]⟩]).2.2.map valTriple) =
      [("BRA", "gdp", 2020), ("BRA", "gdp", 2020)] ∧
    ¬ ((process_data_for_db
        [⟨"BRA", "Brazil", none, none, none,
          [("economic",
            [⟨"GDP", "gdp", some "1", some 2020⟩,
             ⟨"GDP again", "gdp", some "2", some 2020⟩])]⟩]).2.2.map valTriple).Nodup := by
  decide

/-- C1 (amended): `process_data_for_db` performs no value-level
deduplication, so the emitted (country_code, indicator_code, year)
triples are pairwise distinct exactly when the emitting input
occurrences (country, indicator code, year) are pairwise distinct. -/
theorem c1_uniqueness_amended (cs : List CountryInput) :
    (((process_data_for_db cs).2.2).map valTriple).Nodup ↔
      ((((allOccs cs).filter (fun o => (emitVal? o).isSome)).map occTriple).Nodup) := by
  rw [process_eq]
  rw [show ((cs.map mkCountryRow, (allOccs cs).foldl addInd [],
      (allOccs cs).filterMap emitVal?).2.2) = (allOccs cs).filterMap emitVal? from rfl]
  rw [filterMap_emit_triples]

/-- C2 (counterexample): on the record with the year omitted, the
normalize step emits the indicator definition but no value row at all
(`indicator.get('year')` is falsy), rather than parsing the year 2020
out of the value text. -/
theorem c2_counterexample :
    (process_data_for_db
        [⟨"BRA", "Brazil", none, none, none,
          [("economic", [⟨"GDP", "gdp", some "1,444.7 (2020)", none⟩])]⟩]).2.2 = [] ∧
    (process_data_for_db
        [⟨"BRA", "Brazil", none, none, none,
          [("economic", [⟨"GDP", "gdp", some "1,444.7 (2020)", none⟩])]⟩]).2.1 =
      [⟨"gdp", "GDP", some "economic", "", "Banco Mundial"⟩] := by
  decide

/-- C2 (amended): the year is parsed from the value text by the
extractor (`get_country_data`), not by the normalize step: the
extractor turns name `"GDP"` and value text `"1,444.7 (2020)"` into
the record with value `"1,444.7"` and year 2020, and the pipeline then
emits country `BRA`, indicator `gdp` under `economic`, and exactly the
one value row (BRA, gdp, 2020, 1444.7). -/
theorem c2_scenario_amended :
    extract_indicator "GDP" "1,444.7 (2020)" =
      ⟨"GDP", "gdp", some "1,444.7", some 2020⟩ ∧
    process_data_for_db
        [⟨"BRA", "Brazil", none, none, none,
          [("economic", [extract_indicator "GDP" "1,444.7 (2020)"])]⟩] =
      ([⟨"BRA", "Brazil", none, none, none, some "br", some "BRA"⟩],
       [⟨"gdp", "GDP", some "economic", "", "Banco Mundial"⟩],
       [⟨"BRA", "gdp", 2020, ⟨false, 14447, 1⟩⟩]) ∧
    pyFloatVal ⟨false, 14447, 1⟩ = 14447 / 10 := by
  refine ⟨by decide, by decide, by norm_num [pyFloatVal]⟩

/-- C3: numeric coercion factors through the character strip (so it is
idempotent: coercing an already-cleaned string changes nothing), the
decorated forms of 3.14 coerce to the same value as the clean form,
and the empty string and `"N/A"` coerce to nothing. -/
theorem c3_coercion :
    (∀ s : String, coerce_value (clean_value s) = coerce_value s) ∧
    coerce_value "3.14" = some ⟨false, 314, 2⟩ ∧
    coerce_value "3.14%" = coerce_value "3.14" ∧
    coerce_value "$3.14" = coerce_value "3.14" ∧
    pyFloatVal ⟨false, 314, 2⟩ = 314 / 100 ∧
    coerce_value "" = none ∧
    coerce_value "N/A" = none := by
  refine ⟨?_, by decide, by decide, by decide, by norm_num [pyFloatVal], by decide, by decide⟩
  intro s
  have hidem : clean_value (clean_value s) = clean_value s := by
    unfold clean_value
    congr 1
    show (s.data.filter keptChar).filter keptChar = s.data.filter keptChar
    rw [List.filter_filter]
    simp [Bool.and_self]
  unfold coerce_value
  rw [hidem]

/-- C4 (counterexample): when the first candidate bearing a code has
an empty display name, it does not survive, and a later candidate with
the same code does — so it is not the first-seen candidate of a code
that survives. -/
theorem c4_counterexample :
    uniqueLinks [⟨"u1", "X", ""⟩, ⟨"u2", "X", "A"⟩] = [⟨"u2", "X", "A"⟩] ∧
    (⟨"u2", "X", "A"⟩ : CountryLink) ≠ ⟨"u1", "X", ""⟩ := by
  decide

/-- C4 (amended): empty-named candidates are discarded first (they
neither survive nor reserve their code), and among the remaining
candidates with the same derived code exactly the first-seen one
survives, in first-seen order; every survivor comes from the input and
has a non-empty name. -/
theorem c4_dedup_amended (links : List CountryLink) :
    uniqueLinks links = dedupFrom [] (links.filter (fun l => l.name ≠ "")) ∧
    (((uniqueLinks links).map (fun l => l.code)).Nodup) ∧
    ∀ l ∈ uniqueLinks links, l ∈ links ∧ l.name ≠ "" := by
  have hmain : uniqueLinks links = dedupFrom [] (links.filter (fun l => l.name ≠ "")) := by
    rw [uniqueLinks, uniqueStep_foldl]
    simp
  refine ⟨hmain, ?_, ?_⟩
  · rw [hmain]
    exact dedupFrom_nodup _ _
  · intro l hl
    rw [hmain] at hl
    obtain ⟨hmem, _⟩ := dedupFrom_mem _ _ _ hl
    rw [List.mem_filter] at hmem
    exact ⟨hmem.1, by simpa using hmem.2⟩

/-- C5: the Normalizer retains exactly one IndicatorDefinition per
indicator code (codes in the output are pairwise distinct), and the
retained row for each code is built from the first occurrence of that
code in iteration order across all countries and categories — carrying
that occurrence's name and category; later occurrences are dropped. -/
theorem c5_indicator_dedup (cs : List CountryInput) :
    ((((process_data_for_db cs).2.1).map (fun r => r.indicator_code)).Nodup) ∧
    ∀ code : String,
      ((process_data_for_db cs).2.1).find? (fun r => r.indicator_code = code) =
        ((allOccs cs).find? (fun o => o.ind.code = code)).map mkIndRow := by
  rw [process_eq]
  constructor
  · exact foldl_addInd_nodup (allOccs cs) [] (by simp)
  · intro code
    rw [show ((cs.map mkCountryRow, (allOccs cs).foldl addInd [],
        (allOccs cs).filterMap emitVal?).2.1) = (allOccs cs).foldl addInd [] from rfl]
    rw [foldl_addInd_find?]
    simp

/-- C6 (counterexample): loading with an empty indicators collection
does not clear the indicators table: the pre-existing row survives a
successful load, so the table contents do not equal the supplied
(empty) collection. -/
theorem c6_counterexample :
    ((create_database_from_data
        [⟨"BRA", "Brazil", none, none, none, some "br", some "BRA"⟩] [] []
        ⟨[], [⟨"old_code", "Old", none, "", "Banco Mundial"⟩], []⟩).1).indicators =
      [⟨"old_code", "Old", none, "", "Banco Mundial"⟩] ∧
    ([⟨"old_code", "Old", none, "", "Banco Mundial"⟩] : List IndicatorRow) ≠ [] := by
  decide

/-- C6 (amended): a successful load always replaces the countries
table with the supplied collection, and replaces the indicators and
indicator_values tables only when the supplied collection is
non-empty; an empty indicators or indicator_values collection leaves
that table's previous contents in place. -/
theorem c6_replace_amended (countries : List CountryRow) (indicators : List IndicatorRow)
    (indicator_values : List ValueRow) (db : DBState) :
    create_database_from_data countries indicators indicator_values db =
      ({ countries := countries,
         indicators := if indicators.isEmpty then db.indicators else indicators,
         indicator_values :=
           if indicator_values.isEmpty then db.indicator_values else indicator_values },
       true) := by
  unfold create_database_from_data create_database_ops
  by_cases hi : indicators.isEmpty <;> by_cases hv : indicator_values.isEmpty <;>
    simp [hi, hv, applyOp]

/-- C7: scraping failures are contained: a failing country-list fetch
yields the empty list, a failing per-country extraction yields no
record, and the collection loop keeps exactly the successful
extractions — one failure never discards the others. -/
theorem c7_error_containment :
    (∀ e : String, get_country_list (Except.error e) = []) ∧
    (∀ e : String, get_country_data (Except.error e) = none) ∧
    (∀ attempts : List (Except String CountryInput),
      collect_country_data attempts = attempts.filterMap get_country_data) := by
  refine ⟨fun e => rfl, fun e => rfl, fun attempts => ?_⟩
  rw [collect_country_data, collect_eq_filterMap]
  simp

/-- C9: the CLI takes one positional argument as the country limit
(everything after it is ignored), defaulting to 10 when absent or
non-integer, and exits with status 1 exactly when the pipeline reports
failure and 0 exactly when it reports success. -/
theorem c9_cli :
    (∀ (setup_data : Int → Bool) (prog : String),
      cli_main setup_data [prog] = if setup_data 10 then 0 else 1) ∧
    (∀ (setup_data : Int → Bool) (prog a : String) (rest : List String),
      pyInt? a = none →
        cli_main setup_data (prog :: a :: rest) = if setup_data 10 then 0 else 1) ∧
    (∀ (setup_data : Int → Bool) (prog a : String) (rest : List String) (n : Int),
      pyInt? a = some n →
        cli_main setup_data (prog :: a :: rest) = if setup_data n then 0 else 1) ∧
    pyInt? "abc" = none ∧
    (∀ (setup_data : Int → Bool) (argv : List String),
      (cli_main setup_data argv = 0 ↔ setup_data (parse_limit_arg argv) = true) ∧
      (cli_main setup_data argv = 1 ↔ setup_data (parse_limit_arg argv) = false)) := by
  refine ⟨?_, ?_, ?_, by decide, ?_⟩
  · intro setup_data prog
    rfl
  · intro setup_data prog a rest h
    simp [cli_main, parse_limit_arg, h]
  · intro setup_data prog a rest n h
    simp [cli_main, parse_limit_arg, h]
  · intro setup_data argv
    unfold cli_main
    cases hs : setup_data (parse_limit_arg argv) <;> simp [hs]

/-- C9 (witness): a non-integer argument with a failing pipeline exits
1; the argument `"7"` with a pipeline succeeding exactly at limit 7
exits 0. -/
theorem c9_cli_witness :
    cli_main (fun _ => false) ["setup.py", "abc"] = 1 ∧
    cli_main (fun n => decide (n = 7)) ["setup.py", "7"] = 0 := by
  constructor
  · have h := c9_cli.2.1 (fun _ => false) "setup.py" "abc" [] (by decide)
    simpa using h
  · have h := c9_cli.2.2.1 (fun n => decide (n = 7)) "setup.py" "7" [] 7 (by decide)
    simpa using h

/-- C10: each input record yields its country row in order, and the
derived codes are: iso2 the lowercased first two characters when the
code has at least two characters (else null), iso3 the uppercased
first three characters when it has at least three (else null). -/
theorem c10_iso_codes (cs : List CountryInput) :
    (process_data_for_db cs).1 = cs.map mkCountryRow ∧
    ∀ c : CountryInput,
      (mkCountryRow c).iso2_code =
        (if 2 ≤ pyLen c.code then some (pyTake (pyLower c.code) 2) else none) ∧
      (mkCountryRow c).iso3_code =
        (if 3 ≤ pyLen c.code then some (pyTake (pyUpper c.code) 3) else none) := by
  refine ⟨by rw [process_eq], ?_⟩
  intro c
  constructor
  · show (if pyLen c.code ≥ 2 then some (pyLower (pyTake c.code 2)) else none) = _
    rw [show pyLower (pyTake c.code 2) = pyTake (pyLower c.code) 2 from by
      unfold pyLower pyTake
      congr 1
      exact (List.map_take Char.toLower c.code.data 2)]
  · show (if pyLen c.code ≥ 3 then some (pyUpper (pyTake c.code 3)) else none) = _
    rw [show pyUpper (pyTake c.code 3) = pyTake (pyUpper c.code) 3 from by
      unfold pyUpper pyTake
      congr 1
      exact (List.map_take Char.toUpper c.code.data 3)]

/-- C8 (counterexample): an indicator whose category is the empty
string (not null) is grouped under the sentinel `"other"` bucket, not
under its own category `""` — the grouping tests Python falsiness, not
null-ness. -/
theorem c8_counterexample :
    country_profile
        ⟨[⟨"AAA", "Aland", none, none, none, none, none⟩],
         [⟨"gdp", "GDP", some "", "", "Banco Mundial"⟩],
         [⟨"AAA", "gdp", 2020, ⟨false, 5, 0⟩⟩]⟩ "AAA" =
      [("other", [⟨"gdp", "GDP", ⟨false, 5, 0⟩, 2020⟩])] ∧
    some "" ≠ (none : Option String) := by
  decide

/-- C8 (amended): for a country present in the store, the profile
query returns the grouped body, and for each indicator code appearing
in the joined rows there is exactly one profile entry: the first row
(in store row order) among those of maximal year — every row of the
partition has year at most its year, and every strictly earlier row of
the partition has a strictly smaller year — and it sits in the bucket
of its category, `"other"` when the category is null or empty. -/
theorem c8_profile_amended (db : DBState) (cc code : String)
    (hc : db.countries.any (fun c => c.country_code = cc) = true)
    (hcode : (profileJoin db cc).any (fun r => r.indicator_code = code) = true) :
    get_country_profile db cc = some (country_profile db cc) ∧
    ∃ r : JoinRow,
      rankOneRow ((profileJoin db cc).filter (fun q => q.indicator_code = code)) = some r ∧
      r ∈ (profileJoin db cc).filter (fun q => q.indicator_code = code) ∧
      (∀ q ∈ (profileJoin db cc).filter (fun q => q.indicator_code = code),
        q.year ≤ r.year) ∧
      (∃ as bs, (profileJoin db cc).filter (fun q => q.indicator_code = code)
          = as ++ r :: bs ∧ ∀ a ∈ as, a.year < r.year) ∧
      (flattenProfile (country_profile db cc)).filter
          (fun be => be.2.indicator_code = code) = [(bucketOf r.category, mkEntry r)] := by
  have hprof : get_country_profile db cc = some (country_profile db cc) := by
    rw [get_country_profile, if_pos hc]
  obtain ⟨r0, hr0, hr0c⟩ := List.any_eq_true.mp hcode
  have hne : (profileJoin db cc).filter (fun q => q.indicator_code = code) ≠ [] := by
    intro h
    have hmem0 : r0 ∈ (profileJoin db cc).filter (fun q => q.indicator_code = code) :=
      List.mem_filter.mpr ⟨hr0, hr0c⟩
    rw [h] at hmem0
    simp at hmem0
  obtain ⟨r, hr⟩ := Option.isSome_iff_exists.mp (rankOneRow_isSome _ hne)
  obtain ⟨hmem, hmax, as, bs, hsplit, hbefore⟩ := rankOneRow_spec _ r hr
  refine ⟨hprof, r, hr, hmem, hmax, ⟨as, bs, hsplit, hbefore⟩, ?_⟩
  have h1 : (flattenProfile (country_profile db cc)).Perm
      ((rankedRows (profileJoin db cc)).map
        (fun r => (bucketOf r.category, mkEntry r))) := by
    rw [country_profile]
    exact (groupRows_flatten _).trans ((sortRows_perm _).map _)
  have hcd : code ∈ seenJoinCodes (profileJoin db cc) := by
    obtain ⟨_, hiff⟩ := seenJoinCodes_spec (profileJoin db cc)
    exact (hiff code).mpr ⟨r0, hr0, of_decide_eq_true hr0c⟩
  have hranked : (rankedRows (profileJoin db cc)).filter
      (fun q => q.indicator_code = code) = (rankOneRow
        ((profileJoin db cc).filter (fun q => q.indicator_code = code))).toList := by
    rw [rankedRows]
    exact rankedRows_filter_present (seenJoinCodes (profileJoin db cc))
      (fun c => rankOneRow ((profileJoin db cc).filter (fun q => q.indicator_code = c)))
      code (fun c r h => rankOneRow_code (profileJoin db cc) c r h)
      (seenJoinCodes_spec (profileJoin db cc)).1 hcd
  have h2 : ((rankedRows (profileJoin db cc)).map
      (fun r => (bucketOf r.category, mkEntry r))).filter
        (fun be => be.2.indicator_code = code) =
      ((rankedRows (profileJoin db cc)).filter
        (fun q => q.indicator_code = code)).map
          (fun r => (bucketOf r.category, mkEntry r)) := by
    rw [List.filter_map]
    congr 1
  have h3 := h1.filter (fun be => be.2.indicator_code = code)
  rw [h2, hranked, hr] at h3
  exact List.perm_singleton.mp (by simpa using h3)

/-- C8 (witness): a concrete three-value store for country `AAA` on
which the profile query is evaluated. -/
theorem c8_profile_amended_witness :
    get_country_profile
        ⟨[⟨"AAA", "Aland", none, none, none, none, none⟩],
         [⟨"gdp", "GDP", some "economic", "", "Banco Mundial"⟩],
         [⟨"AAA", "gdp", 2019, ⟨false, 1, 0⟩⟩,
          ⟨"AAA", "gdp", 2021, ⟨false, 2, 0⟩⟩,
          ⟨"AAA", "gdp", 2021, ⟨false, 3, 0⟩⟩]⟩ "AAA" =
      some (country_profile
        ⟨[⟨"AAA", "Aland", none, none, none, none, none⟩],
         [⟨"gdp", "GDP", some "economic", "", "Banco Mundial"⟩],
         [⟨"AAA", "gdp", 2019, ⟨false, 1, 0⟩⟩,
          ⟨"AAA", "gdp", 2021, ⟨false, 2, 0⟩⟩,
          ⟨"AAA", "gdp", 2021, ⟨false, 3, 0⟩⟩]⟩ "AAA") :=
  (c8_profile_amended
    ⟨[⟨"AAA", "Aland", none, none, none, none, none⟩],
     [⟨"gdp", "GDP", some "economic", "", "Banco Mundial"⟩],
     [⟨"AAA", "gdp", 2019, ⟨false, 1, 0⟩⟩,
      ⟨"AAA", "gdp", 2021, ⟨false, 2, 0⟩⟩,
      ⟨"AAA", "gdp", 2021, ⟨false, 3, 0⟩⟩]⟩ "AAA" "gdp"
    (by decide) (by decide)).1
